import Mathlib

/-!
Verification of the path-normalisation and file-filter logic of the
dongshanMD desktop shell (src/src-tauri/src/app.rs, main.rs, lib.rs).

Strings are modelled as `List Char` (Rust strings are sequences of Unicode
scalar values; the embedding ignores the UTF-8 byte layer and the lossless
`Path::to_str` conversions, which never fail on valid strings).  The
filesystem and the process environment are modelled as an oracle record
`FsEnv`: `canonicalize` is `std::fs::canonicalize` (resolution is relative
to the process working directory, symlinks may rewrite the name entirely,
and it fails — returns `none` — on non-existent paths), `currentDir` is
`std::env::current_dir`.  Paths use the Unix convention: absolute means
starting with a slash.  The delayed `open-file` event of
`process_and_emit_file` is modelled as an optional `Emission` value
recording the event name, the payload and the configured delay; emitting
nothing is `none`.
-/

/-- The double-quote character trimmed first by `clean_file_path`. -/
def dquoteChar : Char := Char.ofNat 34

/-- The single-quote character trimmed second by `clean_file_path`. -/
def squoteChar : Char := Char.ofNat 39

/-- Rust `char::is_whitespace`: membership in the Unicode `White_Space`
set, used by `str::trim`. -/
def rustIsWhitespace (c : Char) : Bool :=
  let n := c.toNat
  n == 9 || n == 10 || n == 11 || n == 12 || n == 13 || n == 32 ||
  n == 133 || n == 160 || n == 5760 || (8192 ≤ n && n ≤ 8202) ||
  n == 8232 || n == 8233 || n == 8239 || n == 8287 || n == 12288

/-- Rust `str::trim_matches` with a single-character (or class) pattern:
all matching characters are removed from the front and from the back,
repeatedly.  `str::trim` is the same with the whitespace class. -/
def trimBy (p : Char → Bool) (l : List Char) : List Char :=
  (l.dropWhile p).rdropWhile p

/-- Embedding of `clean_file_path` (app.rs lines 4-6, main.rs lines 12-14):
`path.trim_matches(dquote).trim_matches(squote).trim()`. -/
def clean_file_path (l : List Char) : List Char :=
  trimBy rustIsWhitespace
    (trimBy (fun c => c == squoteChar) (trimBy (fun c => c == dquoteChar) l))

/-- Character-wise model of Rust `String::to_lowercase`.  ASCII capitals
map down by 32; U+212A (Kelvin sign) and U+212B (Angstrom sign) are the
only further code points whose Unicode lowercase lands on a Latin letter,
and the multi-character special casings all end in combining marks, so this
per-character map classifies every string exactly as the library function
does as far as the ASCII suffixes of `is_supported_file` are concerned. -/
def charToLower (c : Char) : Char :=
  let n := c.toNat
  if 65 ≤ n && n ≤ 90 then Char.ofNat (n + 32)
  else if n == 8490 then Char.ofNat 107
  else if n == 8491 then Char.ofNat 229
  else c

/-- The `.md` suffix recognised by `is_supported_file`. -/
def suffixMd : List Char := ".md".data

/-- The `.markdown` suffix recognised by `is_supported_file`. -/
def suffixMarkdown : List Char := ".markdown".data

/-- The `.txt` suffix recognised by `is_supported_file`. -/
def suffixTxt : List Char := ".txt".data

/-- Embedding of `is_supported_file` (app.rs lines 75-80, main.rs lines
83-88): lowercase the whole string, then test the three fixed suffixes. -/
def is_supported_file (p : List Char) : Bool :=
  let lower := p.map charToLower
  suffixMd.isSuffixOf lower || suffixMarkdown.isSuffixOf lower ||
  suffixTxt.isSuffixOf lower

/-- Rust `Path::is_absolute` under the Unix convention: the path has a
root, i.e. starts with a slash. -/
def isAbsolutePath (l : List Char) : Bool :=
  match l with
  | [] => false
  | c :: _ => c == '/'

/-- Rust `Path::join` (via `PathBuf::push`) under the Unix convention: an
absolute argument replaces the base; otherwise the argument is appended,
inserting a separator unless the base already ends in one. -/
def joinPath (d p : List Char) : List Char :=
  if isAbsolutePath p then p
  else if d.getLast? = some '/' then d ++ p
  else d ++ '/' :: p

/-- Oracle for the process environment: `canonicalize` models
`std::fs::canonicalize` (fails with `none` when the path does not exist;
may return a completely different name when symlinks are involved),
`currentDir` models `std::env::current_dir` (`none` when the working
directory is unavailable). -/
structure FsEnv where
  canonicalize : List Char → Option (List Char)
  currentDir : Option (List Char)

/-- Embedding of `to_absolute_path` (app.rs lines 9-72, main.rs lines
17-80).  The input is cleaned; an absolute cleaned path is canonicalized
when possible and otherwise returned as is; a relative cleaned path is
first canonicalized directly, on failure joined onto the working directory
and canonicalized again, on further failure the joined path is returned;
when the working directory is unavailable the cleaned input is returned. -/
def to_absolute_path (env : FsEnv) (path : List Char) : List Char :=
  let cleaned := clean_file_path path
  if isAbsolutePath cleaned then
    match env.canonicalize cleaned with
    | some canonical => canonical
    | none => cleaned
  else
    match env.canonicalize cleaned with
    | some absolute => absolute
    | none =>
      match env.currentDir with
      | some currentDir =>
        let joined := joinPath currentDir cleaned
        match env.canonicalize joined with
        | some canonical => canonical
        | none => joined
      | none => cleaned

/-- A scheduled UI notification: event name, payload string, and the delay
in milliseconds before delivery. -/
structure Emission where
  event : List Char
  payload : List Char
  delayMs : Nat
deriving DecidableEq

/-- The event name used by `process_and_emit_file`. -/
def openFileEvent : List Char := "open-file".data

/-- The fixed delay, in milliseconds, before the event is emitted. -/
def emitDelayMs : Nat := 800

/-- Embedding of `process_and_emit_file` (app.rs lines 83-102, main.rs
lines 91-110): clean the argument, resolve it, and if the *resolved* path
has a supported extension schedule exactly one `open-file` event carrying
the resolved path after the fixed delay; otherwise do nothing.  The
spawned thread, the sleep and the logging of delivery failures have no
observable effect on which event is scheduled, so the function returns the
scheduled event (or `none`). -/
def process_and_emit_file (env : FsEnv) (file_path : List Char) :
    Option Emission :=
  let cleaned := clean_file_path file_path
  let absolute := to_absolute_path env cleaned
  if is_supported_file absolute then
    some ⟨openFileEvent, absolute, emitDelayMs⟩
  else
    none

/-- The argument-selection step of `main` (main.rs lines 123-145) and
`run_app` (lib.rs lines 20-42): map every OS argument through
`clean_file_path`, keep those whose cleaned form passes
`is_supported_file`, and take the first survivor. -/
def select_file_arg (args : List (List Char)) : Option (List Char) :=
  ((args.map clean_file_path).filter is_supported_file).head?

/-- The dispatch step of `main`/`run_app`: when an argument was selected
it is handed to `process_and_emit_file`; otherwise nothing happens. -/
def run_app_dispatch (env : FsEnv) (args : List (List Char)) :
    Option Emission :=
  match select_file_arg args with
  | some filePath => process_and_emit_file env filePath
  | none => none

/-- A string whose first and last characters (when present) are neither
quote characters nor whitespace, so that `clean_file_path` has nothing to
trim at either end. -/
def cleanNeutralEnds (l : List Char) : Bool :=
  (match l.head? with
   | none => true
   | some c => !(c == dquoteChar || c == squoteChar || rustIsWhitespace c)) &&
  (match l.getLast? with
   | none => true
   | some c => !(c == dquoteChar || c == squoteChar || rustIsWhitespace c))

/-- Whether a string starts with a whitespace character. -/
def hasLeadingWs (l : List Char) : Bool :=
  match l.head? with
  | none => false
  | some c => rustIsWhitespace c

/-- Whether a string ends with a whitespace character. -/
def hasTrailingWs (l : List Char) : Bool :=
  match l.getLast? with
  | none => false
  | some c => rustIsWhitespace c

/-- Environment in which nothing exists and the working directory is
unavailable. -/
def envBare : FsEnv := ⟨fun _ => none, none⟩

/-- Environment in which nothing exists but the working directory is
`/work`. -/
def envWork : FsEnv := ⟨fun _ => none, some "/work".data⟩

/-- Environment containing a symlink named `foo.exe` whose target is
`/notes.md`: `canonicalize` resolves the link to its target name. -/
def envLinkExe : FsEnv :=
  ⟨fun p => if p = "foo.exe".data then some "/notes.md".data else none, none⟩

/-- Environment containing a symlink named `foo.md` whose target is
`/target` (no extension): `canonicalize` resolves the link to its target
name. -/
def envLinkMd : FsEnv :=
  ⟨fun p => if p = "foo.md".data then some "/target".data else none, none⟩

/-! ## Trimming lemmas -/

/-- The head surviving `dropWhile p` never satisfies `p`. -/
theorem dropWhile_head_not (p : Char → Bool) :
    ∀ (m : List Char) (c : Char), (m.dropWhile p).head? = some c → p c = false := by
  intro m
  induction m with
  | nil => intro c h; simp [List.dropWhile] at h
  | cons a t ih =>
    intro c h
    by_cases hp : p a = true
    · rw [List.dropWhile_cons, if_pos hp] at h
      exact ih c h
    · rw [List.dropWhile_cons, if_neg hp] at h
      simp only [List.head?_cons, Option.some.injEq] at h
      subst h
      simpa using hp

/-- `dropWhile p m` is a tail segment of `m`. -/
theorem dropWhile_isTail (p : Char → Bool) :
    ∀ m : List Char, ∃ t, t ++ m.dropWhile p = m := by
  intro m
  induction m with
  | nil => exact ⟨[], rfl⟩
  | cons a t ih =>
    by_cases hp : p a = true
    · obtain ⟨u, hu⟩ := ih
      exact ⟨a :: u, by rw [List.dropWhile_cons, if_pos hp, List.cons_append, hu]⟩
    · exact ⟨[], by rw [List.dropWhile_cons, if_neg hp, List.nil_append]⟩

/-- `rdropWhile p m` is an initial segment of `m`. -/
theorem rdropWhile_isPre (p : Char → Bool) (m : List Char) :
    ∃ t, m.rdropWhile p ++ t = m := by
  obtain ⟨u, hu⟩ := dropWhile_isTail p m.reverse
  refine ⟨u.reverse, ?_⟩
  have h := congrArg List.reverse hu
  simpa [List.rdropWhile, List.reverse_append] using h

/-- The first character of a trimmed string never satisfies the trimming
predicate. -/
theorem trimBy_head_not (p : Char → Bool) (m : List Char) (c : Char)
    (h : (trimBy p m).head? = some c) : p c = false := by
  simp only [trimBy] at h
  obtain ⟨t, ht⟩ := rdropWhile_isPre p (m.dropWhile p)
  have hd : (m.dropWhile p).head? = some c := by
    rw [← ht, List.head?_append, h]
    rfl
  exact dropWhile_head_not p m c hd

/-- The last character of a trimmed string never satisfies the trimming
predicate. -/
theorem trimBy_last_not (p : Char → Bool) (m : List Char) (c : Char)
    (h : (trimBy p m).getLast? = some c) : p c = false := by
  simp only [trimBy, List.rdropWhile] at h
  rw [List.getLast?_reverse] at h
  exact dropWhile_head_not p _ c h

/-- Trimming is the identity when neither end of the string satisfies the
trimming predicate. -/
theorem trimBy_eq_self (p : Char → Bool) (m : List Char)
    (h1 : ∀ c, m.head? = some c → p c = false)
    (h2 : ∀ c, m.getLast? = some c → p c = false) : trimBy p m = m := by
  have hd : m.dropWhile p = m := by
    cases m with
    | nil => rfl
    | cons a t =>
      have ha := h1 a rfl
      rw [List.dropWhile_cons, if_neg (by simp [ha])]
  simp only [trimBy, hd]
  rw [List.rdropWhile_eq_self_iff]
  intro hl
  have := h2 (m.getLast hl) (List.getLast?_eq_getLast m hl)
  simp [this]

/-- Trimming removes one matching character from each end (and hence, by
iteration, arbitrarily many layers). -/
theorem trimBy_wrap (p : Char → Bool) (a b : Char) (ha : p a = true)
    (hb : p b = true) (l : List Char) : trimBy p (a :: l ++ [b]) = trimBy p l := by
  simp only [trimBy]
  rw [List.cons_append, List.dropWhile_cons, if_pos ha, List.dropWhile_append]
  by_cases he : (l.dropWhile p).isEmpty
  · rw [if_pos he]
    have hb' : List.dropWhile p [b] = [] := by
      rw [List.dropWhile_cons, if_pos hb]
      rfl
    have hnil : l.dropWhile p = [] := by simpa [List.isEmpty_iff] using he
    rw [hb', hnil]
  · rw [if_neg he, List.rdropWhile_concat_pos p _ b hb]

/-! ## Claim theorems -/

/-- C1 counterexample: the spec's own example fails.  `clean_file_path`
trims quotes *before* whitespace, so on the string consisting of a space, a
double quote, `a.txt`, a double quote and a space, the quotes survive (they
are not outermost when the quote-trimming runs) and only the spaces are
removed; the result is `"a.txt"` with quotes, not `a.txt`. -/
theorem clean_quoted_spaced_counterexample :
    clean_file_path " \"a.txt\" ".data = "\"a.txt\"".data ∧
    clean_file_path " \"a.txt\" ".data ≠ "a.txt".data := by
  constructor
  · decide
  · decide

/-- C1 amended: `clean_file_path` removes every (not just one) layer of
leading/trailing double-quote characters, then every layer of
leading/trailing single-quote characters, and only then trims surrounding
whitespace; the result never starts or ends with whitespace, wrapping a
string in double quotes does not change its cleaned form, a quoted name
with no surrounding spaces is unquoted (one or two layers alike), but
quotes that sit inside surrounding spaces are kept. -/
theorem clean_file_path_amended :
    (∀ l : List Char,
      clean_file_path (dquoteChar :: l ++ [dquoteChar]) = clean_file_path l) ∧
    (∀ l : List Char, hasLeadingWs (clean_file_path l) = false ∧
      hasTrailingWs (clean_file_path l) = false) ∧
    clean_file_path "\"a.txt\"".data = "a.txt".data ∧
    clean_file_path "\"\"a.txt\"\"".data = "a.txt".data ∧
    clean_file_path " \"a.txt\" ".data = "\"a.txt\"".data := by
  refine ⟨fun l => ?_, fun l => ⟨?_, ?_⟩, by decide, by decide, by decide⟩
  · have h1 : trimBy (fun c => c == dquoteChar) (dquoteChar :: l ++ [dquoteChar]) =
        trimBy (fun c => c == dquoteChar) l :=
      trimBy_wrap _ _ _ (by decide) (by decide) l
    simp only [clean_file_path, h1]
  · cases hc : (clean_file_path l).head? with
    | none => simp [hasLeadingWs, hc]
    | some c =>
      have hw : rustIsWhitespace c = false := by
        apply trimBy_head_not rustIsWhitespace _ c
        simpa [clean_file_path] using hc
      simp [hasLeadingWs, hc, hw]
  · cases hc : (clean_file_path l).getLast? with
    | none => simp [hasTrailingWs, hc]
    | some c =>
      have hw : rustIsWhitespace c = false := by
        apply trimBy_last_not rustIsWhitespace _ c
        simpa [clean_file_path] using hc
      simp [hasTrailingWs, hc, hw]

/-- C8: `clean_file_path` is the identity on every string that has no
leading or trailing double quote, single quote, or whitespace character. -/
theorem clean_file_path_id_of_neutral (l : List Char)
    (h : cleanNeutralEnds l = true) : clean_file_path l = l := by
  rw [cleanNeutralEnds, Bool.and_eq_true] at h
  obtain ⟨hh, hl⟩ := h
  have hhead : ∀ c, l.head? = some c →
      (c == dquoteChar) = false ∧ (c == squoteChar) = false ∧
      rustIsWhitespace c = false := by
    intro c hc
    rw [hc] at hh
    simpa [and_assoc] using hh
  have hlast : ∀ c, l.getLast? = some c →
      (c == dquoteChar) = false ∧ (c == squoteChar) = false ∧
      rustIsWhitespace c = false := by
    intro c hc
    rw [hc] at hl
    simpa [and_assoc] using hl
  have e1 : trimBy (fun c => c == dquoteChar) l = l :=
    trimBy_eq_self _ _ (fun c hc => (hhead c hc).1) (fun c hc => (hlast c hc).1)
  have e2 : trimBy (fun c => c == squoteChar) l = l :=
    trimBy_eq_self _ _ (fun c hc => (hhead c hc).2.1)
      (fun c hc => (hlast c hc).2.1)
  have e3 : trimBy rustIsWhitespace l = l :=
    trimBy_eq_self _ _ (fun c hc => (hhead c hc).2.2)
      (fun c hc => (hlast c hc).2.2)
  simp only [clean_file_path, e1, e2, e3]

/-- C8 witness: a concrete neutral string is fixed by `clean_file_path`. -/
theorem clean_file_path_id_witness :
    cleanNeutralEnds "a.txt".data = true ∧
    clean_file_path "a.txt".data = "a.txt".data :=
  ⟨by decide, clean_file_path_id_of_neutral _ (by decide)⟩

/-- C10: the extension check needs no file-name stem: the bare suffix
strings are themselves supported, while the empty string is not. -/
theorem is_supported_file_bare_suffixes :
    is_supported_file ".md".data = true ∧
    is_supported_file ".markdown".data = true ∧
    is_supported_file ".txt".data = true ∧
    is_supported_file "".data = false := by
  refine ⟨by decide, by decide, by decide, by decide⟩

/-- C2: `is_supported_file` holds exactly when the input splits as some
string followed by a suffix whose lowercase form is `.md`, `.markdown` or
`.txt`; in particular `FOO.MD` is supported and `foo.exe` is not. -/
theorem is_supported_file_iff_ci_suffix :
    (∀ p : List Char, is_supported_file p = true ↔
      ∃ pre suf, p = pre ++ suf ∧
        (suf.map charToLower = suffixMd ∨
         suf.map charToLower = suffixMarkdown ∨
         suf.map charToLower = suffixTxt)) ∧
    is_supported_file "FOO.MD".data = true ∧
    is_supported_file "foo.exe".data = false := by
  refine ⟨fun p => ?_, by decide, by decide⟩
  constructor
  · intro h
    simp only [is_supported_file, Bool.or_eq_true,
      List.isSuffixOf_iff_suffix] at h
    obtain (h | h) | h := h
    · obtain ⟨t, ht⟩ := h
      obtain ⟨p1, p2, hp, _, h2⟩ := List.map_eq_append_iff.mp ht.symm
      exact ⟨p1, p2, hp, Or.inl h2⟩
    · obtain ⟨t, ht⟩ := h
      obtain ⟨p1, p2, hp, _, h2⟩ := List.map_eq_append_iff.mp ht.symm
      exact ⟨p1, p2, hp, Or.inr (Or.inl h2)⟩
    · obtain ⟨t, ht⟩ := h
      obtain ⟨p1, p2, hp, _, h2⟩ := List.map_eq_append_iff.mp ht.symm
      exact ⟨p1, p2, hp, Or.inr (Or.inr h2)⟩
  · rintro ⟨pre, suf, rfl, hsuf⟩
    simp only [is_supported_file, Bool.or_eq_true,
      List.isSuffixOf_iff_suffix, List.map_append]
    rcases hsuf with h | h | h
    · exact Or.inl (Or.inl ⟨List.map charToLower pre, by rw [h]⟩)
    · exact Or.inl (Or.inr ⟨List.map charToLower pre, by rw [h]⟩)
    · exact Or.inr ⟨List.map charToLower pre, by rw [h]⟩

/-- C3: on a relative (cleaned) input, `to_absolute_path` returns the
direct canonicalization when it succeeds; when it fails and the working
directory is available, it returns the canonicalization of the
working-directory-joined path when that succeeds, and the joined,
uncanonicalized path when it fails too. -/
theorem to_absolute_path_relative_cases (env : FsEnv) (p : List Char)
    (habs : isAbsolutePath (clean_file_path p) = false) :
    (∀ c, env.canonicalize (clean_file_path p) = some c →
      to_absolute_path env p = c) ∧
    (∀ d, env.canonicalize (clean_file_path p) = none →
      env.currentDir = some d →
      (∀ c, env.canonicalize (joinPath d (clean_file_path p)) = some c →
        to_absolute_path env p = c) ∧
      (env.canonicalize (joinPath d (clean_file_path p)) = none →
        to_absolute_path env p = joinPath d (clean_file_path p))) := by
  refine ⟨fun c hc => ?_, fun d hn hd => ⟨fun c hc => ?_, fun hj => ?_⟩⟩
  · simp [to_absolute_path, habs, hc]
  · simp [to_absolute_path, habs, hn, hd, hc]
  · simp [to_absolute_path, habs, hn, hd, hj]

/-- C3 witness: a non-existent relative file in working directory `/work`
resolves to the joined, uncanonicalized path. -/
theorem to_absolute_path_relative_witness :
    to_absolute_path envWork "notes.md".data =
      joinPath "/work".data "notes.md".data :=
  ((to_absolute_path_relative_cases envWork "notes.md".data
    (by decide)).2 "/work".data rfl rfl).2 rfl

/-- C4: `to_absolute_path` is total and degrades gracefully: its result is
always the cleaned input itself, a successful canonicalization result, or
the working-directory-joined cleaned input; and when the cleaned input is
relative, canonicalization fails and the working directory is unavailable,
it returns the cleaned input unchanged. -/
theorem to_absolute_path_total_and_fallback (env : FsEnv) (p : List Char) :
    (to_absolute_path env p = clean_file_path p ∨
     (∃ q r, env.canonicalize q = some r ∧ to_absolute_path env p = r) ∨
     (∃ d, env.currentDir = some d ∧
        to_absolute_path env p = joinPath d (clean_file_path p))) ∧
    (isAbsolutePath (clean_file_path p) = false →
      env.canonicalize (clean_file_path p) = none →
      env.currentDir = none →
      to_absolute_path env p = clean_file_path p) := by
  constructor
  · by_cases habs : isAbsolutePath (clean_file_path p) = true
    · cases hc : env.canonicalize (clean_file_path p) with
      | some c =>
        exact Or.inr (Or.inl ⟨_, _, hc, by simp [to_absolute_path, habs, hc]⟩)
      | none => exact Or.inl (by simp [to_absolute_path, habs, hc])
    · have habs' : isAbsolutePath (clean_file_path p) = false := by
        simpa using habs
      cases hc : env.canonicalize (clean_file_path p) with
      | some c =>
        exact Or.inr (Or.inl ⟨_, _, hc, by simp [to_absolute_path, habs', hc]⟩)
      | none =>
        cases hd : env.currentDir with
        | none => exact Or.inl (by simp [to_absolute_path, habs', hc, hd])
        | some d =>
          cases hj : env.canonicalize (joinPath d (clean_file_path p)) with
          | some c =>
            exact Or.inr (Or.inl ⟨_, _, hj,
              by simp [to_absolute_path, habs', hc, hd, hj]⟩)
          | none =>
            exact Or.inr (Or.inr ⟨d, rfl,
              by simp [to_absolute_path, habs', hc, hd, hj]⟩)
  · intro h1 h2 h3
    simp [to_absolute_path, h1, h2, h3]

/-- C4 witness: with no working directory and nothing canonicalizable, the
cleaned input comes back unchanged. -/
theorem to_absolute_path_fallback_witness :
    to_absolute_path envBare "x.md".data = clean_file_path "x.md".data :=
  (to_absolute_path_total_and_fallback envBare "x.md".data).2
    (by decide) rfl rfl

/-- C5 counterexample: an input with an unsupported extension can still
trigger the notification, because the extension check runs on the
*resolved* path: in `envLinkExe` the name `foo.exe` is a symlink that
canonicalizes to `/notes.md`, and dispatching `foo.exe` emits. -/
theorem dispatch_unsupported_input_counterexample :
    is_supported_file "foo.exe".data = false ∧
    process_and_emit_file envLinkExe "foo.exe".data =
      some ⟨openFileEvent, "/notes.md".data, emitDelayMs⟩ := by
  refine ⟨by decide, by decide⟩

/-- C5 amended: dispatch performs no action whenever the *resolved* path
(the cleaned input passed through `to_absolute_path`) has an unsupported
extension. -/
theorem dispatch_none_of_resolved_unsupported (env : FsEnv) (p : List Char)
    (h : is_supported_file (to_absolute_path env (clean_file_path p)) = false) :
    process_and_emit_file env p = none := by
  simp [process_and_emit_file, h]

/-- C5 witness: `foo.exe` in a bare environment resolves to itself and is
not dispatched. -/
theorem dispatch_none_witness :
    is_supported_file
      (to_absolute_path envBare (clean_file_path "foo.exe".data)) = false ∧
    process_and_emit_file envBare "foo.exe".data = none :=
  ⟨by decide, dispatch_none_of_resolved_unsupported envBare _ (by decide)⟩

/-- C6 counterexample: an input with a supported extension can trigger no
notification at all: in `envLinkMd` the name `foo.md` is a symlink that
canonicalizes to `/target` (no extension), and dispatching `foo.md` emits
nothing, contradicting "exactly one notification". -/
theorem dispatch_supported_input_counterexample :
    is_supported_file "foo.md".data = true ∧
    process_and_emit_file envLinkMd "foo.md".data = none := by
  refine ⟨by decide, by decide⟩

/-- C6 amended: whenever the *resolved* path has a supported extension,
dispatch schedules exactly one `open-file` notification whose payload is
the resolved path, after the fixed 800 ms delay. -/
theorem dispatch_emits_of_resolved_supported (env : FsEnv) (p : List Char)
    (h : is_supported_file (to_absolute_path env (clean_file_path p)) = true) :
    process_and_emit_file env p =
      some ⟨openFileEvent, to_absolute_path env (clean_file_path p),
        emitDelayMs⟩ := by
  simp [process_and_emit_file, h]

/-- C6 witness: `a.md` in a bare environment resolves to itself and is
dispatched once with the fixed delay. -/
theorem dispatch_emits_witness :
    process_and_emit_file envBare "a.md".data =
      some ⟨openFileEvent,
        to_absolute_path envBare (clean_file_path "a.md".data),
        emitDelayMs⟩ :=
  dispatch_emits_of_resolved_supported envBare "a.md".data (by decide)

/-- C9: every emitted notification carries a payload that passes
`is_supported_file`: the extension check is applied to the resolved path
immediately before scheduling. -/
theorem emitted_payload_supported (env : FsEnv) (p : List Char)
    (e : Emission) (h : process_and_emit_file env p = some e) :
    is_supported_file e.payload = true := by
  simp only [process_and_emit_file] at h
  by_cases hs :
      is_supported_file (to_absolute_path env (clean_file_path p)) = true
  · rw [if_pos hs] at h
    have he := Option.some.inj h
    subst he
    simpa using hs
  · rw [if_neg hs] at h
    exact absurd h (by simp)

/-- C9 witness: the payload of the event emitted for `a.md` in a bare
environment is supported. -/
theorem emitted_payload_witness :
    is_supported_file
      (Emission.payload ⟨openFileEvent, "a.md".data, emitDelayMs⟩) = true :=
  emitted_payload_supported envBare "a.md".data
    ⟨openFileEvent, "a.md".data, emitDelayMs⟩ (by decide)

/-- C7: the argument handed to dispatch is the cleaned form of the first
OS argument whose cleaned form has a supported extension; when no argument
qualifies, nothing is selected and nothing is dispatched. -/
theorem first_supported_arg_selected (args : List (List Char)) (env : FsEnv) :
    ((∀ a ∈ args, is_supported_file (clean_file_path a) = false) →
      select_file_arg args = none ∧ run_app_dispatch env args = none) ∧
    (∀ l₁ a l₂, args = l₁ ++ a :: l₂ →
      (∀ b ∈ l₁, is_supported_file (clean_file_path b) = false) →
      is_supported_file (clean_file_path a) = true →
      select_file_arg args = some (clean_file_path a)) := by
  constructor
  · intro h
    have hsel : select_file_arg args = none := by
      simp only [select_file_arg]
      have hnil : (args.map clean_file_path).filter is_supported_file = [] := by
        rw [List.filter_eq_nil_iff]
        intro x hx
        obtain ⟨a, ha, rfl⟩ := List.mem_map.mp hx
        simp [h a ha]
      rw [hnil]
      rfl
    exact ⟨hsel, by simp [run_app_dispatch, hsel]⟩
  · intro l₁ a l₂ hargs h1 ha
    subst hargs
    simp only [select_file_arg, List.map_append, List.map_cons,
      List.filter_append]
    have hf1 : (l₁.map clean_file_path).filter is_supported_file = [] := by
      rw [List.filter_eq_nil_iff]
      intro x hx
      obtain ⟨b, hb, rfl⟩ := List.mem_map.mp hx
      simp [h1 b hb]
    rw [hf1, List.nil_append, List.filter_cons_of_pos ha]
    rfl

/-- C7 witness: among `x.exe`, `b.md`, `c.txt` the first supported
argument, `b.md`, is selected (in cleaned form). -/
theorem first_supported_arg_witness :
    select_file_arg ["x.exe".data, "b.md".data, "c.txt".data] =
      some (clean_file_path "b.md".data) :=
  (first_supported_arg_selected
      ["x.exe".data, "b.md".data, "c.txt".data] envBare).2
    ["x.exe".data] "b.md".data ["c.txt".data] rfl (by decide) (by decide)
